import Mathlib

/-!
Shallow embedding of the date-expression resolution and timestamp-merge core
of the `jrnl` journaling tool (`src/jrnl/helpers.py` and `src/jrnl/journal.py`),
together with proofs settling the specification claims about it.

Modelling conventions:
* Calendar dates are modelled as integer day numbers (`Int`); `datetime.date`
  subtraction then becomes integer subtraction and the order on dates is the
  integer order.
* Python exceptions are modelled by `Except`/`Option` result types; a `none` or
  `.error` value marks an exception escaping the translated code.
* Python strings are modelled as `List Char`.
-/

namespace Jrnl

/-- Python `bisect.bisect_left(date_list, target)` for a sorted list: the
leftmost insertion point of `target`, which on a sorted list equals the number
of elements strictly smaller than `target`. -/
def bisect_left (date_list : List Int) (target : Int) : Nat :=
  date_list.countP (fun d => decide (d < target))

/-- `helpers.find_closest_date(date_list, target_date)`.

Python body:
```
pos = bisect_left(date_list, target_date)
if pos == 0: return date_list[0]
if pos == len(date_list): return date_list[-1]
before = date_list[pos - 1]
after = date_list[pos]
if after - target_date < target_date - before: return after
return before
```
Indexing `date_list[i]` is rendered as `getD i 0` and `date_list[-1]` as
`getD (length - 1) 0`; on an empty list Python raises `IndexError` at
`date_list[0]`, which is outside the domain of every theorem below (they all
assume a non-empty list), so the `getD` default is never reached there. -/
def find_closest_date (date_list : List Int) (target_date : Int) : Int :=
  let pos := bisect_left date_list target_date
  if pos = 0 then date_list.getD 0 0
  else if pos = date_list.length then date_list.getD (date_list.length - 1) 0
  else
    let before := date_list.getD (pos - 1) 0
    let after := date_list.getD pos 0
    if after - target_date < target_date - before then after else before

/-- The exception classes of `journal.py` that the modelled fragment can
raise.  All four are direct subclasses of `EntryNotFoundException`, so none
is an instance of a sibling: an `except` clause for one of them catches
exactly that constructor. -/
inductive JrnlExc
  | argumentNotFound   -- EntryArgumentNotFoundException
  | ancestorNotFound   -- EntryAncestorNotFoundException
  | neighbourNotFound  -- EntryNeighbourNotFoundException
  | headNotFound       -- JournalHeadNotFoundException
deriving DecidableEq, Repr

/-- `journal.find_closest_existing_entry(date, journal_path)`, abstracted over
the entry index `entries` that `get_all_entry_dates` would compute.

Python body:
```
year_entries = get_all_entry_dates(journal_path)
if not year_entries:
    raise EntryAncestorNotFoundException
return find_closest_date(year_entries, date)
```
Note the raised class is `EntryAncestorNotFoundException`, although the
docstring of the function advertises `EntryNeighbourNotFoundException`. -/
def find_closest_existing_entry (entries : List Int) (date : Int) : Except JrnlExc Int :=
  if entries.isEmpty then Except.error JrnlExc.ancestorNotFound
  else Except.ok (find_closest_date entries date)

/-- `journal.find_entrys_nth_ancestor(date, n, journal_path)`, abstracted over
the entry index `entries` that `get_all_entry_dates` would compute.

Python body:
```
try: target_index = year_entries.index(date)
except ValueError: raise EntryArgumentNotFoundException
ancestor_index = target_index - n
if ancestor_index < 0 or ancestor_index >= len(year_entries):
    raise EntryAncestorNotFoundException
return year_entries[ancestor_index]
```
`list.index` returns the first matching position and raises `ValueError`
when the value is absent; absence is rendered as `findIdx` hitting the
length of the list. -/
def find_entrys_nth_ancestor (entries : List Int) (date : Int) (n : Int) :
    Except JrnlExc Int :=
  let target_index := entries.findIdx (fun d => decide (d = date))
  if target_index = entries.length then Except.error JrnlExc.argumentNotFound
  else
    let ancestor_index : Int := (target_index : Int) - n
    if ancestor_index < 0 ∨ (entries.length : Int) ≤ ancestor_index then
      Except.error JrnlExc.ancestorNotFound
    else Except.ok (entries.getD ancestor_index.toNat 0)

/-- Outcome of one per-expression step inside the `parse_dates` loop:
`keep d` means the (possibly replaced) date flows on, `drop` means a
diagnostic was printed and the loop `continue`s with the expression removed
from the result set, and `uncaught e` means the exception `e` escapes the
step's `try` block — and therefore escapes `parse_dates` itself, aborting the
whole batch. -/
inductive StepOutcome
  | keep (d : Int)
  | drop
  | uncaught (e : JrnlExc)
deriving DecidableEq, Repr

/-- The `@`-handling step of `journal.parse_dates` (lines 350-358), abstracted
over the entry index:
```
try:
    parsed_date = find_closest_existing_entry(parsed_date, journal_path)
except EntryNeighbourNotFoundException:
    print("No existing journal entry found!", file=sys.stderr)
```
The `except` clause catches exactly `EntryNeighbourNotFoundException` (no
other modelled class is a subclass of it). -/
def apply_closest_match (entries : List Int) (parsed_date : Int) : StepOutcome :=
  match find_closest_existing_entry entries parsed_date with
  | Except.ok d => StepOutcome.keep d
  | Except.error e =>
    if e = JrnlExc.neighbourNotFound then StepOutcome.keep parsed_date
    else StepOutcome.uncaught e

/-- The ancestor-offset step of `journal.parse_dates` (lines 360-386),
abstracted over the entry index:
```
if ancestor_offset:
    try:
        parsed_date = find_entrys_nth_ancestor(parsed_date, ancestor_offset, journal_path)
    except EntryArgumentNotFoundException:
        print(...); print(...); continue
    except EntryAncestorNotFoundException:
        print(...); continue
```
Python's `if ancestor_offset:` tests integer truthiness, i.e. the guard is
`ancestor_offset ≠ 0`. -/
def apply_ancestor_offset (entries : List Int) (parsed_date : Int)
    (ancestor_offset : Int) : StepOutcome :=
  if ancestor_offset ≠ 0 then
    match find_entrys_nth_ancestor entries parsed_date ancestor_offset with
    | Except.ok d => StepOutcome.keep d
    | Except.error JrnlExc.argumentNotFound => StepOutcome.drop
    | Except.error JrnlExc.ancestorNotFound => StepOutcome.drop
    | Except.error e => StepOutcome.uncaught e
  else StepOutcome.keep parsed_date

/-- ASCII decimal digit test, modelling the regex class `\d` on the ASCII
command-line strings the program works with. -/
def isDig (c : Char) : Bool := decide ('0' ≤ c) && decide (c ≤ '9')

/-- Splits a string at its **last** `'~'`: `some (pre, suf)` with
`s = pre ++ '~' :: suf` and no `'~'` inside `suf`, or `none` when there is no
tilde.  This is where the greedy `.*` of `re.match(r".*~(-?\d*)$", s)` hands
over to the literal `~`: the tilde it consumes is necessarily the last one in
the string, because the capture group `(-?\d*)` can never contain a tilde. -/
def splitLastTilde : List Char → Option (List Char × List Char)
  | [] => none
  | c :: rest =>
    match splitLastTilde rest with
    | some (pre, suf) => some (c :: pre, suf)
    | none => if c = '~' then some ([], rest) else none

/-- Whether a whole string matches the anchored group `-?\d*`. -/
def matchesOptSignDigits : List Char → Bool
  | '-' :: rest => rest.all isDig
  | l => l.all isDig

/-- Numeric value of a digit string. -/
def digitsToNat (l : List Char) : Nat :=
  l.foldl (fun a c => a * 10 + (c.toNat - '0'.toNat)) 0

/-- Python `int(s)` restricted to strings matching `-?\d*` — the only strings
`parse_ancestor_offsets` feeds to it (the captured group of `.*~(-?\d*)$`).
Digits give the value and a leading minus negates it; a string with no
digits (the lone `"-"`, or the never-passed `""`) raises `ValueError`,
rendered as `none`. -/
def pyIntOfSignedDigits : List Char → Option Int
  | '-' :: rest => if rest.isEmpty then none else some (-(digitsToNat rest : Int))
  | l => if l.isEmpty then none else some ((digitsToNat l : Int))

/-- One-iteration-per-fuel-unit rendering of the `while True` loop of
`journal.parse_ancestor_offsets` (lines 238-260).  `none` means the loop has
not returned within `fuel` iterations; `some r` is the loop's result, where
`r = Except.error ()` marks the uncaught `ValueError` of `int("-")` escaping
the function and `Except.ok (stripped, offset)` is a normal return.

Python body of one iteration:
```
if date_arg.endswith("^"):
    offset += 1; date_arg = date_arg[:-1]; continue
regex_match = re.match(tilde_pattern, date_arg)   # r".*~(-?\d*)$"
if regex_match and regex_match.group(1):
    offset_str = regex_match.group(1)
    offset += int(offset_str)
    date_arg = date_arg[: -(len(offset_str) + 1)]
    continue
return (date_arg, offset)
```
On a newline-free string (`.` does not cross and `$` does not stop before a
newline), the regex matches exactly when the string contains a `~` whose
tilde-free suffix fully matches `-?\d*`, the group being that suffix;
removing the trailing `len(group) + 1` characters then leaves exactly the
part before the last tilde. -/
def parse_ancestor_offsets_loop :
    Nat → List Char → Int → Option (Except Unit (List Char × Int))
  | 0, _, _ => none
  | fuel + 1, date_arg, offset =>
    if date_arg.getLast? = some '^' then
      parse_ancestor_offsets_loop fuel date_arg.dropLast (offset + 1)
    else
      match splitLastTilde date_arg with
      | some (pre, suf) =>
        if matchesOptSignDigits suf && !suf.isEmpty then
          match pyIntOfSignedDigits suf with
          | none => some (Except.error ())
          | some k => parse_ancestor_offsets_loop fuel pre (offset + k)
        else some (Except.ok (date_arg, offset))
      | none => some (Except.ok (date_arg, offset))

/-- `journal.parse_ancestor_offsets(date_arg)`, with the local `offset`
accumulator exposed as a parameter (the function starts it at `0`).  The loop
is run with `length + 1` fuel units; `parse_ancestor_offsets_terminates`
proves this is always enough, so the `getD` default is never used. -/
def parse_ancestor_offsets (date_arg : List Char) (offset : Int) :
    Except Unit (List Char × Int) :=
  (parse_ancestor_offsets_loop (date_arg.length + 1) date_arg offset).getD
    (Except.ok (date_arg, offset))

/-- A calendar date as year, month and day fields, the result of parsing an
entry file name. -/
structure Ymd where
  y : Nat
  m : Nat
  d : Nat
deriving DecidableEq, Repr

/-- `datetime.date` order (used by Python's `sorted`): lexicographic on
year, month, day. -/
def ymdLe (a b : Ymd) : Prop :=
  a.y < b.y ∨ (a.y = b.y ∧ (a.m < b.m ∨ (a.m = b.m ∧ a.d ≤ b.d)))

instance : DecidableRel ymdLe := fun a b => by
  unfold ymdLe
  infer_instance

instance : IsTotal Ymd ymdLe :=
  ⟨by
    intro a b
    obtain ⟨ay, am, ad⟩ := a
    obtain ⟨b1, b2, b3⟩ := b
    simp only [ymdLe]
    omega⟩

instance : IsTrans Ymd ymdLe :=
  ⟨by
    intro a b c hab hbc
    obtain ⟨ay, am, ad⟩ := a
    obtain ⟨b1, b2, b3⟩ := b
    obtain ⟨c1, c2, c3⟩ := c
    simp only [ymdLe] at hab hbc ⊢
    omega⟩

/-- The Gregorian leap-year rule used by `datetime`. -/
def isLeap (y : Nat) : Bool :=
  (decide (y % 4 = 0)) && (decide (y % 100 ≠ 0) || decide (y % 400 = 0))

/-- Length of a month, as `datetime` validates it. -/
def daysInMonth (y m : Nat) : Nat :=
  if m = 2 then (if isLeap y then 29 else 28)
  else if m = 4 ∨ m = 6 ∨ m = 9 ∨ m = 11 then 30
  else 31

/-- The month alternatives of CPython's `%m` directive, whose compiled regex
is `1[0-2]|0[1-9]|[1-9]`: each entry is a parsed value paired with the rest
of the string, listed in the alternation's preference order (the engine
takes the first alternative that lets the remainder of the format match). -/
def monthAlts : List Char → List (Nat × List Char)
  | [] => []
  | c :: rest =>
    (match c, rest with
     | '1', c2 :: rest2 =>
       if isDig c2 && decide (c2 ≤ '2') then [(10 + (c2.toNat - '0'.toNat), rest2)]
       else []
     | '0', c2 :: rest2 =>
       if isDig c2 && decide (c2 ≠ '0') then [(c2.toNat - '0'.toNat, rest2)]
       else []
     | _, _ => []) ++
    (if isDig c && decide (c ≠ '0') then [(c.toNat - '0'.toNat, rest)] else [])

/-- The day alternatives of CPython's `%d` directive, compiled regex
`3[01]|[12]\d|0[1-9]|[1-9]`, in preference order. -/
def dayAlts : List Char → List (Nat × List Char)
  | [] => []
  | c :: rest =>
    (match c, rest with
     | '3', c2 :: rest2 =>
       if c2 = '0' || c2 = '1' then [(30 + (c2.toNat - '0'.toNat), rest2)]
       else []
     | '1', c2 :: rest2 =>
       if isDig c2 then [(10 + (c2.toNat - '0'.toNat), rest2)] else []
     | '2', c2 :: rest2 =>
       if isDig c2 then [(20 + (c2.toNat - '0'.toNat), rest2)] else []
     | '0', c2 :: rest2 =>
       if isDig c2 && decide (c2 ≠ '0') then [(c2.toNat - '0'.toNat, rest2)]
       else []
     | _, _ => []) ++
    (if isDig c && decide (c ≠ '0') then [(c.toNat - '0'.toNat, rest)] else [])

/-- `datetime.datetime.strptime(s, "%Y-%m-%d").date()`.  CPython compiles
the format to the anchored regex `(\d\d\d\d)-(1[0-2]|0[1-9]|[1-9])-`
`(3[01]|[12]\d|0[1-9]|[1-9])`, requires it to consume the whole string
("unconverted data remains" otherwise), and then builds a `datetime`, which
raises `ValueError` for year `0` or a day beyond the month's length.  Every
failure mode is `ValueError`, rendered as `none`. -/
def strptime_Y_m_d (s : List Char) : Option Ymd :=
  match s with
  | y1 :: y2 :: y3 :: y4 :: '-' :: rest =>
    if isDig y1 && isDig y2 && isDig y3 && isDig y4 then
      let y := digitsToNat [y1, y2, y3, y4]
      match (monthAlts rest).filterMap (fun mr =>
        match mr.2 with
        | '-' :: rest3 =>
          match (dayAlts rest3).filterMap (fun dr =>
            if dr.2.isEmpty then some dr.1 else none) with
          | [] => none
          | d :: _ => some (mr.1, d)
        | _ => none) with
      | [] => none
      | (m, d) :: _ =>
        if 1 ≤ y ∧ d ≤ daysInMonth y m then some ⟨y, m, d⟩ else none
    else none
  | _ => none

/-- The filename filter of `journal.get_years_existing_entry_dates`:
`re.match(r"\d{4}-\d{2}-\d{2}.txt", d)`.  `re.match` anchors only at the
start (a **prefix** match — there is no `$`), and the unescaped `.` matches
any single character except a newline. -/
def entryFileNameMatch : List Char → Bool
  | c1 :: c2 :: c3 :: c4 :: '-' :: c6 :: c7 :: '-' :: c9 :: c10 :: c11 :: 't' :: 'x' :: 't' :: _ =>
    isDig c1 && isDig c2 && isDig c3 && isDig c4 && isDig c6 && isDig c7 &&
    isDig c9 && isDig c10 && decide (c11 ≠ '\n')
  | _ => false

/-- Python `d[:-4]`: drop the last four characters (all of the string when it
is shorter than four characters). -/
def stripTxt (d : List Char) : List Char := d.take (d.length - 4)

/-- The list comprehension
`[datetime.datetime.strptime(d, "%Y-%m-%d").date() for d in date_strings]`:
evaluated left to right, the first `ValueError` aborts the whole
comprehension (rendered as `none`). -/
def buildDates : List (List Char) → Option (List Ymd)
  | [] => some []
  | d :: ds =>
    match strptime_Y_m_d d with
    | none => none
    | some x =>
      match buildDates ds with
      | none => none
      | some xs => some (x :: xs)

/-- `journal.get_years_existing_entry_dates(year, journal_path)`, abstracted
over the directory listing `file_names` that `os.listdir` would return.

Python body:
```
date_strings = [d[:-4] for d in file_names if re.match(r"\d{4}-\d{2}-\d{2}.txt", d)]
dates = [datetime.datetime.strptime(d, "%Y-%m-%d").date() for d in date_strings]
return sorted(dates)
```
`sorted` is modelled by `List.insertionSort` under the `datetime.date`
order; `none` marks the uncaught `ValueError` escaping the second
comprehension. -/
def get_years_existing_entry_dates (file_names : List (List Char)) : Option (List Ymd) :=
  let date_strings := (file_names.filter entryFileNameMatch).map stripTxt
  match buildDates date_strings with
  | none => none
  | some dates => some (List.insertionSort ymdLe dates)

/-- Prefix test on character lists (needle first): does `hay` start with
`needle`? -/
def startsWithStr : List Char → List Char → Bool
  | [], _ => true
  | _ :: _, [] => false
  | a :: as, b :: bs => decide (a = b) && startsWithStr as bs

/-- Python `str.endswith`: does `s` end with `suffix`? -/
def endsWithStr (s suffix : List Char) : Bool :=
  startsWithStr suffix.reverse s.reverse

/-- Python substring containment `needle in hay`. -/
def containsStr : List Char → List Char → Bool
  | [], needle => needle.isEmpty
  | c :: t, needle => startsWithStr needle (c :: t) || containsStr t needle

/-- Split a text at its newline characters (`k` newlines give `k + 1`
segments); used to count date lines and time lines in a file. -/
def splitNL : List Char → List (List Char)
  | [] => [[]]
  | c :: rest =>
    if c = '\n' then [] :: splitNL rest
    else
      match splitNL rest with
      | [] => [[c]]
      | l :: ls => (c :: l) :: ls

/-- `journal.write_timestamp(entry_path, this_datetime)` as a pure function
from the current file contents — `none` when the file does not exist — to
the contents after the call.  `this_date` and `this_time` are the
`strftime("%Y-%m-%d")` and `strftime("%H:%M")` renderings of the instant.

Python body:
```
if not os.path.isfile(entry_path):
    with open(entry_path, "x") as jrnl_entry:
        jrnl_entry.write(this_date + "\n" + this_time + "\n")
else:
    entry_text = open(entry_path).read()
    print_date = not (this_date in entry_text)
    print_newline = not entry_text.endswith("\n\n")
    with open(entry_path, "a") as jrnl_entry:
        jrnl_entry.write(print_newline * "\n" + (this_date + "\n") * print_date
                         + this_time + "\n\n")
```
(The two branch-local `if`/`else` assignments of `print_date` and
`print_newline` are written here as the Boolean negations they compute.) -/
def write_timestamp (existing : Option (List Char)) (this_date this_time : List Char) :
    List Char :=
  match existing with
  | none => this_date ++ '\n' :: (this_time ++ ['\n'])
  | some entry_text =>
    let print_date := !containsStr entry_text this_date
    let print_newline := !endsWithStr entry_text ['\n', '\n']
    entry_text ++
      (if print_newline then ['\n'] else []) ++
      (if print_date then this_date ++ ['\n'] else []) ++
      (this_time ++ ['\n', '\n'])

/-- An in-range `getD` lookup returns an element of the list. -/
lemma getD_mem_of_lt : ∀ (l : List Int) (i : Nat), i < l.length → l.getD i 0 ∈ l := by
  intro l
  induction l with
  | nil => intro i hi; simp at hi
  | cons a tl ih =>
    intro i hi
    cases i with
    | zero => simp
    | succ j =>
      have h := ih j (by simpa using hi)
      simp only [List.getD_cons_succ]
      exact List.mem_cons_of_mem a h

/-- On a strictly sorted list, every index below the insertion point holds a
value `< target` and every index at or above it holds a value `≥ target`. -/
lemma bisect_left_spec (t : Int) :
    ∀ (l : List Int), l.Sorted (· < ·) →
      (∀ i, i < bisect_left l t → l.getD i 0 < t) ∧
      (∀ i, bisect_left l t ≤ i → i < l.length → t ≤ l.getD i 0) := by
  intro l
  induction l with
  | nil =>
    intro _
    constructor
    · intro i hi
      simp [bisect_left] at hi
    · intro i _ hi
      simp at hi
  | cons a tl ih =>
    intro hs
    rw [List.sorted_cons] at hs
    obtain ⟨ha, hs'⟩ := hs
    obtain ⟨ih1, ih2⟩ := ih hs'
    by_cases hat : a < t
    · have hcount : bisect_left (a :: tl) t = bisect_left tl t + 1 := by
        simp [bisect_left, List.countP_cons, hat]
      constructor
      · intro i hi
        cases i with
        | zero => simpa using hat
        | succ j =>
          rw [hcount] at hi
          have := ih1 j (by omega)
          simpa using this
      · intro i hi hlen
        cases i with
        | zero => omega
        | succ j =>
          rw [hcount] at hi
          have := ih2 j (by omega) (by simpa using hlen)
          simpa using this
    · have hcount : bisect_left (a :: tl) t = 0 := by
        have htl : tl.countP (fun d => decide (d < t)) = 0 := by
          rw [List.countP_eq_zero]
          intro b hb
          have : a < b := ha b hb
          simp only [decide_eq_true_eq]
          omega
        simp [bisect_left, List.countP_cons, hat, htl]
      constructor
      · intro i hi
        rw [hcount] at hi
        omega
      · intro i _ hlen
        cases i with
        | zero => simpa using le_of_not_lt hat
        | succ j =>
          have hj : j < tl.length := by simpa using hlen
          have hmem : tl.getD j 0 ∈ tl := getD_mem_of_lt tl j hj
          have : a < tl.getD j 0 := ha _ hmem
          have hat' : t ≤ a := le_of_not_lt hat
          simp only [List.getD_cons_succ]
          omega

/-- The insertion point never exceeds the list's length. -/
lemma bisect_left_le_length (l : List Int) (t : Int) : bisect_left l t ≤ l.length :=
  List.countP_le_length _

/-- Branch unfolding: insertion point 0 returns the first element. -/
lemma find_closest_date_pos_zero (l : List Int) (t : Int) (h : bisect_left l t = 0) :
    find_closest_date l t = l.getD 0 0 := by
  simp only [find_closest_date, h, if_pos]

/-- Branch unfolding: insertion point at the end returns the last element. -/
lemma find_closest_date_pos_len (l : List Int) (t : Int) (h0 : bisect_left l t ≠ 0)
    (h1 : bisect_left l t = l.length) :
    find_closest_date l t = l.getD (l.length - 1) 0 := by
  simp only [find_closest_date]
  rw [if_neg h0, if_pos h1]

/-- Branch unfolding: an interior insertion point compares the two
neighbouring candidates. -/
lemma find_closest_date_pos_mid (l : List Int) (t : Int) (h0 : bisect_left l t ≠ 0)
    (h1 : bisect_left l t ≠ l.length) :
    find_closest_date l t =
      if l.getD (bisect_left l t) 0 - t < t - l.getD (bisect_left l t - 1) 0 then
        l.getD (bisect_left l t) 0
      else l.getD (bisect_left l t - 1) 0 := by
  simp only [find_closest_date]
  rw [if_neg h0, if_neg h1]

/-- C1. For every non-empty strictly ascending list of dates and every target,
`find_closest_date` returns a member of the list; a target before the first
element yields the first element and a target after the last yields the last;
at an interior insertion point the result is one of the two adjacent
candidates, its absolute day-difference from the target is minimal among the
two, and on an exact tie the result is the older (strictly earlier) of the two
equidistant candidates. -/
theorem find_closest_date_spec (l : List Int) (t : Int) (hne : l ≠ [])
    (hs : l.Sorted (· < ·)) :
    find_closest_date l t ∈ l ∧
    (t < l.getD 0 0 → find_closest_date l t = l.getD 0 0) ∧
    (l.getD (l.length - 1) 0 < t → find_closest_date l t = l.getD (l.length - 1) 0) ∧
    (∀ pos, pos = bisect_left l t → 0 < pos → pos < l.length →
      (find_closest_date l t = l.getD (pos - 1) 0 ∨ find_closest_date l t = l.getD pos 0) ∧
      |find_closest_date l t - t| ≤ |l.getD (pos - 1) 0 - t| ∧
      |find_closest_date l t - t| ≤ |l.getD pos 0 - t| ∧
      (|l.getD (pos - 1) 0 - t| = |l.getD pos 0 - t| →
        find_closest_date l t = l.getD (pos - 1) 0 ∧ l.getD (pos - 1) 0 < l.getD pos 0)) := by
  have hlen0 : 0 < l.length := List.length_pos.mpr hne
  have hple := bisect_left_le_length l t
  obtain ⟨hlt, hge⟩ := bisect_left_spec t l hs
  by_cases h0 : bisect_left l t = 0
  · have hr := find_closest_date_pos_zero l t h0
    refine ⟨hr ▸ getD_mem_of_lt l 0 hlen0, fun _ => hr, ?_, ?_⟩
    · intro hlast
      have h1 : t ≤ l.getD (l.length - 1) 0 := hge (l.length - 1) (by omega) (by omega)
      omega
    · intro pos hpos hpos0 _
      omega
  · by_cases h1 : bisect_left l t = l.length
    · have hr := find_closest_date_pos_len l t h0 h1
      refine ⟨hr ▸ getD_mem_of_lt l (l.length - 1) (by omega), ?_, fun _ => hr, ?_⟩
      · intro hfirst
        have := hlt 0 (by omega)
        omega
      · intro pos hpos _ hposlen
        omega
    · have hpos0 : 0 < bisect_left l t := Nat.pos_of_ne_zero h0
      have hposlen : bisect_left l t < l.length := lt_of_le_of_ne hple h1
      have hbefore : l.getD (bisect_left l t - 1) 0 < t := hlt _ (by omega)
      have hafter : t ≤ l.getD (bisect_left l t) 0 := hge _ le_rfl hposlen
      have hr := find_closest_date_pos_mid l t h0 h1
      have habs_b : |l.getD (bisect_left l t - 1) 0 - t| = t - l.getD (bisect_left l t - 1) 0 := by
        rw [abs_of_nonpos (by omega)]; ring
      have habs_a : |l.getD (bisect_left l t) 0 - t| = l.getD (bisect_left l t) 0 - t := by
        rw [abs_of_nonneg (by omega)]
      have hmem : find_closest_date l t ∈ l := by
        rw [hr]
        split
        · exact getD_mem_of_lt l _ hposlen
        · exact getD_mem_of_lt l _ (by omega)
      refine ⟨hmem, ?_, ?_, ?_⟩
      · intro hfirst
        have := hlt 0 (by omega)
        omega
      · intro hlast
        have := hge (l.length - 1) (by omega) (by omega)
        omega
      · intro pos hpos _ _
        subst hpos
        rw [hr]
        by_cases h : l.getD (bisect_left l t) 0 - t < t - l.getD (bisect_left l t - 1) 0
        · rw [if_pos h]
          refine ⟨Or.inr rfl, ?_, ?_, ?_⟩
          · rw [habs_b, habs_a]; omega
          · rw [habs_a]
          · intro htie
            rw [habs_b, habs_a] at htie
            omega
        · rw [if_neg h]
          refine ⟨Or.inl rfl, ?_, ?_, ?_⟩
          · rw [habs_b]
          · rw [habs_b, habs_a]; omega
          · intro _
            exact ⟨rfl, by omega⟩

/-- Witness for C1 at a concrete tie: dates `[0, 4]`, target `2` (both
candidates two days away) — the older candidate `0` is returned. -/
theorem find_closest_date_spec_witness :
    find_closest_date [0, 4] 2 = 0 ∧ (0 : Int) < 4 := by
  have h := find_closest_date_spec [0, 4] 2 (by decide) (by decide)
  have h4 := (h.2.2.2 1 (by decide) (by decide) (by decide)).2.2.2 (by decide)
  exact ⟨h4.1, by decide⟩

/-- C9. On a strictly ascending list, looking up a date that is itself a
member returns exactly that date. -/
theorem find_closest_date_of_mem (l : List Int) (t : Int) (hs : l.Sorted (· < ·))
    (hmem : t ∈ l) : find_closest_date l t = t := by
  obtain ⟨hlt, hge⟩ := bisect_left_spec t l hs
  have hple := bisect_left_le_length l t
  obtain ⟨k, hk⟩ := List.mem_iff_get.mp hmem
  have hklen : (k : Nat) < l.length := k.isLt
  have hkval : l.getD (k : Nat) 0 = t := by
    rw [List.getD_eq_getElem l 0 k.isLt, ← List.get_eq_getElem, hk]
  -- the insertion point cannot exceed k, since l[k] = t is not < t
  have hposk : bisect_left l t ≤ (k : Nat) := by
    by_contra hcontra
    have := hlt (k : Nat) (by omega)
    omega
  have hposlen : bisect_left l t < l.length := by omega
  -- l[pos] = t: t ≤ l[pos], and if pos < k then l[pos] < l[k] = t by strict order
  have hposval : l.getD (bisect_left l t) 0 = t := by
    have h1 : t ≤ l.getD (bisect_left l t) 0 := hge _ le_rfl hposlen
    rcases Nat.lt_or_ge (bisect_left l t) (k : Nat) with hlt' | hge'
    · exfalso
      have hmono := List.Sorted.rel_get_of_lt hs
        (a := ⟨bisect_left l t, hposlen⟩) (b := k) (by simpa using hlt')
      rw [hk] at hmono
      have hgd : l.getD (bisect_left l t) 0 = l.get ⟨bisect_left l t, hposlen⟩ := by
        rw [List.getD_eq_getElem l 0 hposlen, List.get_eq_getElem]
      rw [hgd] at h1
      omega
    · have : bisect_left l t = (k : Nat) := by omega
      rw [this, hkval]
  by_cases h0 : bisect_left l t = 0
  · rw [find_closest_date_pos_zero l t h0, ← h0, hposval]
  · have hbefore : l.getD (bisect_left l t - 1) 0 < t := hlt _ (by omega)
    rw [find_closest_date_pos_mid l t h0 (by omega), hposval, if_pos (by omega)]

/-- Witness for C9: in `[3, 5, 9]` the member `5` resolves to itself. -/
theorem find_closest_date_of_mem_witness : find_closest_date [3, 5, 9] 5 = 5 :=
  find_closest_date_of_mem [3, 5, 9] 5 (by decide) (by decide)

/-- `findIdx` for a value that is not in the list returns the length
(the situation in which Python's `list.index` raises `ValueError`). -/
lemma findIdx_eq_length_of_not_mem (entries : List Int) (date : Int)
    (h : date ∉ entries) :
    entries.findIdx (fun d => decide (d = date)) = entries.length := by
  induction entries with
  | nil => simp
  | cons a tl ih =>
    have hne : a ≠ date := fun hcontra => h (hcontra ▸ List.mem_cons_self a tl)
    have htl : date ∉ tl := fun hcontra => h (List.mem_cons_of_mem a hcontra)
    simp [List.findIdx_cons, hne, ih htl]

/-- On a strictly sorted list, `findIdx` of an equality test finds exactly the
index holding the value. -/
lemma findIdx_of_sorted_getD (entries : List Int) (date : Int)
    (hs : entries.Sorted (· < ·)) :
    ∀ i, i < entries.length → entries.getD i 0 = date →
      entries.findIdx (fun d => decide (d = date)) = i := by
  induction entries with
  | nil => intro i hi; simp at hi
  | cons a tl ih =>
    rw [List.sorted_cons] at hs
    obtain ⟨ha, hs'⟩ := hs
    intro i hi hval
    cases i with
    | zero =>
      simp only [List.getD_cons_zero] at hval
      simp [List.findIdx_cons, hval]
    | succ j =>
      have hj : j < tl.length := by simpa using hi
      simp only [List.getD_cons_succ] at hval
      have hmem : date ∈ tl := hval ▸ getD_mem_of_lt tl j hj
      have hne : a ≠ date := ne_of_lt (ha date hmem)
      simp [List.findIdx_cons, hne, ih hs' j hj hval]

/-- C5. `find_entrys_nth_ancestor` fails with
`EntryArgumentNotFoundException` (spec: `AncestorBaseNotFoundError`) when the
date is not in the index; otherwise, with the date at index `i`, it fails
with `EntryAncestorNotFoundException` (spec: `AncestorOutOfRangeError`) when
`i - n` is out of bounds and returns the entry at position `i - n` when it is
in bounds, so positive `n` moves toward older entries. -/
theorem find_entrys_nth_ancestor_spec (entries : List Int) (date n : Int)
    (hs : entries.Sorted (· < ·)) :
    (date ∉ entries →
      find_entrys_nth_ancestor entries date n = Except.error JrnlExc.argumentNotFound) ∧
    (∀ i : Nat, i < entries.length → entries.getD i 0 = date →
      ((((i : Int) - n < 0 ∨ (entries.length : Int) ≤ (i : Int) - n) →
          find_entrys_nth_ancestor entries date n = Except.error JrnlExc.ancestorNotFound) ∧
       (∀ j : Nat, (j : Int) = (i : Int) - n → j < entries.length →
          find_entrys_nth_ancestor entries date n = Except.ok (entries.getD j 0)))) := by
  constructor
  · intro hnotmem
    have hidx := findIdx_eq_length_of_not_mem entries date hnotmem
    simp only [find_entrys_nth_ancestor, hidx, if_pos]
  · intro i hi hval
    have hidx := findIdx_of_sorted_getD entries date hs i hi hval
    constructor
    · intro hout
      simp only [find_entrys_nth_ancestor, hidx]
      rw [if_neg (by omega), if_pos (by omega)]
    · intro j hj hjlen
      simp only [find_entrys_nth_ancestor, hidx]
      rw [if_neg (by omega), if_neg (by omega)]
      have : ((i : Int) - n).toNat = j := by omega
      rw [this]

/-- Witness for C5, instantiating the `head^^` scenario: index
`[d1, d2, d3] = [0, 1, 2]`, base `d3 = 2` (the head), offset `n = 2` —
the second ancestor is `d1 = 0`. -/
theorem find_entrys_nth_ancestor_spec_witness :
    find_entrys_nth_ancestor [0, 1, 2] 2 2 = Except.ok 0 :=
  (((find_entrys_nth_ancestor_spec [0, 1, 2] 2 2 (by decide)).2
    2 (by decide) (by decide)).2 0 (by decide) (by decide))

/-- C2. With an empty entry index, the `@` (closest-match) step raises
`EntryAncestorNotFoundException`, which the step's
`except EntryNeighbourNotFoundException` clause does not catch: the
exception escapes `parse_dates` and aborts the whole batch instead of
dropping just this expression. -/
theorem apply_closest_match_empty_index :
    apply_closest_match [] 20240615 = StepOutcome.uncaught JrnlExc.ancestorNotFound ∧
    apply_closest_match [] 20240615 ≠ StepOutcome.drop := by
  constructor
  · rfl
  · intro h
    simp [apply_closest_match, find_closest_existing_entry] at h

/-- A successful `splitLastTilde` is a genuine decomposition of the string. -/
lemma splitLastTilde_eq :
    ∀ (s pre suf : List Char), splitLastTilde s = some (pre, suf) →
      s = pre ++ '~' :: suf := by
  intro s
  induction s with
  | nil => intro pre suf h; simp [splitLastTilde] at h
  | cons c rest ih =>
    intro pre suf h
    simp only [splitLastTilde] at h
    rcases hr : splitLastTilde rest with _ | ⟨p, sf⟩
    · rw [hr] at h
      by_cases hc : c = '~'
      · rw [if_pos hc] at h
        obtain ⟨h1, h2⟩ := Prod.mk.injEq .. ▸ Option.some.injEq .. ▸ h
        subst hc
        cases h1
        cases h2
        simp
      · rw [if_neg hc] at h
        exact absurd h (by simp)
    · rw [hr] at h
      obtain ⟨h1, h2⟩ := Prod.mk.injEq .. ▸ Option.some.injEq .. ▸ h
      have := ih p sf hr
      subst this
      cases h1
      cases h2
      simp

/-- The part before the last tilde is strictly shorter than the string. -/
lemma splitLastTilde_length (s pre suf : List Char)
    (h : splitLastTilde s = some (pre, suf)) : pre.length < s.length := by
  have := splitLastTilde_eq s pre suf h
  subst this
  simp

/-- Fuel invariance and termination for the suffix-stripping loop: once the
fuel exceeds the string's length the loop has returned, and the result does
not depend on how much extra fuel is supplied. -/
lemma parse_loop_fuel_inv :
    ∀ (n : Nat) (s : List Char), s.length ≤ n → ∀ (off : Int) (f g : Nat),
      s.length < f → s.length < g →
      parse_ancestor_offsets_loop f s off = parse_ancestor_offsets_loop g s off ∧
      (parse_ancestor_offsets_loop f s off).isSome := by
  intro n
  induction n with
  | zero =>
    intro s hs off f g hf hg
    have hnil : s = [] := List.length_eq_zero.mp (by omega)
    subst hnil
    obtain ⟨f', rfl⟩ : ∃ f', f = f' + 1 := ⟨f - 1, by omega⟩
    obtain ⟨g', rfl⟩ : ∃ g', g = g' + 1 := ⟨g - 1, by omega⟩
    simp [parse_ancestor_offsets_loop, splitLastTilde]
  | succ m ih =>
    intro s hs off f g hf hg
    obtain ⟨f', rfl⟩ : ∃ f', f = f' + 1 := ⟨f - 1, by omega⟩
    obtain ⟨g', rfl⟩ : ∃ g', g = g' + 1 := ⟨g - 1, by omega⟩
    by_cases hcaret : s.getLast? = some '^'
    · have hne : s ≠ [] := by
        intro hnil; rw [hnil] at hcaret; simp at hcaret
      have hlen : s.dropLast.length = s.length - 1 := by simp
      have hpos : 0 < s.length := List.length_pos.mpr hne
      simp only [parse_ancestor_offsets_loop, if_pos hcaret]
      exact ih s.dropLast (by omega) (off + 1) f' g' (by omega) (by omega)
    · simp only [parse_ancestor_offsets_loop, if_neg hcaret]
      rcases hsp : splitLastTilde s with _ | ⟨pre, suf⟩
      · simp
      · simp only []
        by_cases hm : matchesOptSignDigits suf && !suf.isEmpty
        · rw [if_pos hm, if_pos hm]
          rcases hpy : pyIntOfSignedDigits suf with _ | k
          · simp
          · have hpre := splitLastTilde_length s pre suf hsp
            exact ih pre (by omega) (off + k) f' g' (by omega) (by omega)
        · rw [if_neg hm, if_neg hm]
          simp

/-- C10. The loop of `parse_ancestor_offsets` reaches its return after at
most length-of-input stripping iterations: with `length + 1` fuel units the
loop has already produced its result, and any larger fuel gives the same
result (each iteration that does not return strips at least one character,
one `^` or a `~` with its non-empty digit suffix). -/
theorem parse_ancestor_offsets_terminates (s : List Char) (off : Int) (fuel : Nat)
    (hfuel : s.length < fuel) :
    parse_ancestor_offsets_loop fuel s off =
      parse_ancestor_offsets_loop (s.length + 1) s off ∧
    (parse_ancestor_offsets_loop (s.length + 1) s off).isSome := by
  obtain ⟨heq, hsome⟩ :=
    parse_loop_fuel_inv s.length s le_rfl off fuel (s.length + 1) hfuel (by omega)
  exact ⟨heq, heq ▸ hsome⟩

/-- Witness for C10 on the concrete input `"d~1^"` (length 4): 42 fuel units
give the same result as 5, and the loop has returned within 5. -/
theorem parse_ancestor_offsets_terminates_witness :
    parse_ancestor_offsets_loop 42 ['d', '~', '1', '^'] 0 =
      parse_ancestor_offsets_loop 5 ['d', '~', '1', '^'] 0 ∧
    (parse_ancestor_offsets_loop 5 ['d', '~', '1', '^'] 0).isSome :=
  parse_ancestor_offsets_terminates ['d', '~', '1', '^'] 0 42 (by decide)

/-- C7. Evaluating `parse_ancestor_offsets` at the failing input `"head~-"`:
the regex `.*~(-?\d*)$` matches with the non-empty group `"-"`, so the code
calls `int("-")`, which raises an uncaught `ValueError` — the function does
not return normally and the trailing `~-` is not left untouched. -/
theorem parse_ancestor_offsets_tilde_minus :
    parse_ancestor_offsets ['h', 'e', 'a', 'd', '~', '-'] 0 = Except.error () := by
  rfl

/-- C6 counterexample: the expression `"2024-06-15~0"` has an explicitly
present offset chain (`~0`), which the offset parser consumes with
accumulated offset `0`; with an empty entry index (so the base is certainly
not an existing entry) the ancestor step of `parse_dates` nevertheless keeps
the bare date instead of failing: `if ancestor_offset:` is false at `0`, so
the Ancestor Resolver is never invoked. -/
theorem tilde_zero_skips_ancestor_resolution :
    parse_ancestor_offsets
        ['2', '0', '2', '4', '-', '0', '6', '-', '1', '5', '~', '0'] 0 =
      Except.ok (['2', '0', '2', '4', '-', '0', '6', '-', '1', '5'], 0) ∧
    apply_ancestor_offset [] 20240615 0 = StepOutcome.keep 20240615 ∧
    apply_ancestor_offset [] 20240615 0 ≠ StepOutcome.drop := by
  refine ⟨rfl, rfl, ?_⟩
  intro h
  simp [apply_ancestor_offset] at h

/-- C6 amended: the decision to invoke the Ancestor Resolver is keyed on the
accumulated offset being nonzero, not on the offset chain being present.  An
offset of `0` (even one written explicitly as `~0`) skips ancestor resolution
and keeps the base date without requiring it to be an existing entry, while a
nonzero offset whose base is not in the index is reported and dropped. -/
theorem apply_ancestor_offset_keyed_on_nonzero (entries : List Int) (d off : Int) :
    (off = 0 → apply_ancestor_offset entries d off = StepOutcome.keep d) ∧
    (off ≠ 0 → d ∉ entries → apply_ancestor_offset entries d off = StepOutcome.drop) := by
  constructor
  · intro h
    simp [apply_ancestor_offset, h]
  · intro h hnm
    have hidx := findIdx_eq_length_of_not_mem entries d hnm
    have herr : find_entrys_nth_ancestor entries d off =
        Except.error JrnlExc.argumentNotFound := by
      simp only [find_entrys_nth_ancestor, hidx, if_pos]
    simp [apply_ancestor_offset, h, herr]

/-- Witness for the amended C6: offset `1` with an empty index drops the
expression; offset `0` with an empty index keeps the date `7`. -/
theorem apply_ancestor_offset_keyed_on_nonzero_witness :
    apply_ancestor_offset [] 7 1 = StepOutcome.drop ∧
    apply_ancestor_offset [] 7 0 = StepOutcome.keep 7 :=
  ⟨(apply_ancestor_offset_keyed_on_nonzero [] 7 1).2 (by decide) (by simp),
   (apply_ancestor_offset_keyed_on_nonzero [] 7 0).1 rfl⟩

/-- When every string parses, the date-building comprehension returns the
parses, in order. -/
lemma buildDates_all_some :
    ∀ (ds : List (List Char)), (∀ d ∈ ds, (strptime_Y_m_d d).isSome) →
      ∃ xs, buildDates ds = some xs ∧
        (∀ x, x ∈ xs ↔ ∃ d ∈ ds, strptime_Y_m_d d = some x) := by
  intro ds
  induction ds with
  | nil =>
    intro _
    exact ⟨[], rfl, by simp⟩
  | cons d tl ih =>
    intro hall
    have hd := hall d (List.mem_cons_self d tl)
    obtain ⟨x0, hx0⟩ := Option.isSome_iff_exists.mp hd
    obtain ⟨xs, hbuild, hmem⟩ := ih (fun d' hd' => hall d' (List.mem_cons_of_mem d hd'))
    refine ⟨x0 :: xs, ?_, ?_⟩
    · simp only [buildDates, hx0, hbuild]
    · intro x
      simp only [List.mem_cons, hmem x]
      constructor
      · rintro (rfl | ⟨d', hd', hx⟩)
        · exact ⟨d, Or.inl rfl, hx0⟩
        · exact ⟨d', Or.inr hd', hx⟩
      · rintro ⟨d', (rfl | hd'), hx⟩
        · exact Or.inl (Option.some.inj (hx0.symm.trans hx)).symm
        · exact Or.inr ⟨d', hd', hx⟩

/-- A single failing parse anywhere in the list aborts the whole
comprehension with a `ValueError`. -/
lemma buildDates_none :
    ∀ (ds : List (List Char)) (d : List Char), d ∈ ds →
      strptime_Y_m_d d = none → buildDates ds = none := by
  intro ds
  induction ds with
  | nil => intro d hd; simp at hd
  | cons a tl ih =>
    intro d hd hnone
    rcases List.mem_cons.mp hd with rfl | hd'
    · simp only [buildDates, hnone]
    · simp only [buildDates]
      rcases ha : strptime_Y_m_d a with _ | x
      · rfl
      · rw [ih d hd' hnone]

/-- C3 counterexample.  First input: the single file name `"2020-13-01.txt"`
matches the filename pattern but is not a valid calendar date — the claim
says it is silently ignored (result `[]`), yet the unguarded `strptime` call
raises `ValueError` (`none`).  Second input: the single file name
`"2020-01-01xtxt"` does **not** match `^\d{4}-\d{2}-\d{2}\.txt$` as an exact
match — the claim says it is ignored — yet the code's prefix match with an
unescaped dot accepts it and produces the entry 2020-01-01. -/
theorem get_years_existing_entry_dates_cex :
    get_years_existing_entry_dates
        [['2', '0', '2', '0', '-', '1', '3', '-', '0', '1', '.', 't', 'x', 't']] = none ∧
    get_years_existing_entry_dates
        [['2', '0', '2', '0', '-', '0', '1', '-', '0', '1', 'x', 't', 'x', 't']] =
      some [⟨2020, 1, 1⟩] := by
  exact ⟨rfl, rfl⟩

/-- C3 amended: the scan keeps exactly the file names matching
`\d{4}-\d{2}-\d{2}.txt` as a *prefix* (with `.` matching any single
non-newline character), strips the last four characters and parses the
remainder with strict `%Y-%m-%d` semantics; non-matching names are silently
ignored, and when every kept name parses the result is the ascending sorted
list of exactly the parsed dates — but a kept name whose stripped remainder
is not a valid calendar date raises an uncaught `ValueError` instead of
being ignored. -/
theorem get_years_existing_entry_dates_spec (file_names : List (List Char)) :
    ((∀ f ∈ file_names, entryFileNameMatch f = true →
        (strptime_Y_m_d (stripTxt f)).isSome) →
      ∃ l, get_years_existing_entry_dates file_names = some l ∧
        l.Sorted ymdLe ∧
        (∀ x, x ∈ l ↔ ∃ f ∈ file_names, entryFileNameMatch f = true ∧
          strptime_Y_m_d (stripTxt f) = some x)) ∧
    ((∃ f ∈ file_names, entryFileNameMatch f = true ∧
        strptime_Y_m_d (stripTxt f) = none) →
      get_years_existing_entry_dates file_names = none) := by
  constructor
  · intro hall
    have hall' : ∀ d ∈ (file_names.filter entryFileNameMatch).map stripTxt,
        (strptime_Y_m_d d).isSome := by
      intro d hd
      simp only [List.mem_map, List.mem_filter] at hd
      obtain ⟨f, ⟨hf, hp⟩, rfl⟩ := hd
      exact hall f hf hp
    obtain ⟨xs, hbuild, hmem⟩ := buildDates_all_some _ hall'
    refine ⟨List.insertionSort ymdLe xs, ?_, ?_, ?_⟩
    · simp only [get_years_existing_entry_dates, hbuild]
    · exact List.sorted_insertionSort ymdLe xs
    · intro x
      rw [List.mem_insertionSort, hmem x]
      constructor
      · rintro ⟨d, hd, hx⟩
        simp only [List.mem_map, List.mem_filter] at hd
        obtain ⟨f, ⟨hf, hp⟩, rfl⟩ := hd
        exact ⟨f, hf, hp, hx⟩
      · rintro ⟨f, hf, hp, hx⟩
        refine ⟨stripTxt f, ?_, hx⟩
        simp only [List.mem_map, List.mem_filter]
        exact ⟨f, ⟨hf, hp⟩, rfl⟩
  · rintro ⟨f, hf, hp, hnone⟩
    have hd : stripTxt f ∈ (file_names.filter entryFileNameMatch).map stripTxt := by
      simp only [List.mem_map, List.mem_filter]
      exact ⟨f, ⟨hf, hp⟩, rfl⟩
    have hbuild := buildDates_none _ _ hd hnone
    simp only [get_years_existing_entry_dates, hbuild]

/-- Witness for the amended C3: a valid entry name together with a
non-matching name produces exactly that entry's date. -/
theorem get_years_existing_entry_dates_spec_witness :
    ∃ l, get_years_existing_entry_dates
        [['2', '0', '2', '0', '-', '0', '6', '-', '1', '5', '.', 't', 'x', 't'],
         ['n', 'o', 't', 'e', 's', '.', 'd', 'o', 'c']] = some l ∧
      l.Sorted ymdLe ∧
      (∀ x, x ∈ l ↔ ∃ f ∈
          [['2', '0', '2', '0', '-', '0', '6', '-', '1', '5', '.', 't', 'x', 't'],
           ['n', 'o', 't', 'e', 's', '.', 'd', 'o', 'c']],
        entryFileNameMatch f = true ∧ strptime_Y_m_d (stripTxt f) = some x) :=
  (get_years_existing_entry_dates_spec _).1 (by decide)

/-- A string starts with itself followed by anything. -/
lemma startsWithStr_append_self :
    ∀ (needle rest : List Char), startsWithStr needle (needle ++ rest) = true := by
  intro needle
  induction needle with
  | nil => intro rest; rfl
  | cons a as ih =>
    intro rest
    simp [startsWithStr, ih rest]

/-- A string contains any of its own leading segments. -/
lemma containsStr_append_self (needle rest : List Char) :
    containsStr (needle ++ rest) needle = true := by
  cases hn : needle with
  | nil =>
    cases rest with
    | nil => rfl
    | cons c t => simp [containsStr, startsWithStr]
  | cons a as =>
    simp only [List.cons_append, containsStr, Bool.or_eq_true]
    exact Or.inl (startsWithStr_append_self (a :: as) rest)

/-- Any text of the shape `B ++ T ++ "\n\n"` ends with `"\n\n"`. -/
lemma endsWithStr_pair (B T : List Char) :
    endsWithStr (B ++ (T ++ ['\n', '\n'])) ['\n', '\n'] = true := by
  simp [endsWithStr, List.reverse_append, startsWithStr]

/-- A text ending in a non-empty newline-free segment followed by two
newlines does not end with three newlines. -/
lemma endsWithStr_triple (B T : List Char) (hne : T ≠ []) (hnl : '\n' ∉ T) :
    endsWithStr (B ++ (T ++ ['\n', '\n'])) ['\n', '\n', '\n'] = false := by
  obtain ⟨c, cs, hrev⟩ : ∃ c cs, T.reverse = c :: cs := by
    rcases hr : T.reverse with _ | ⟨c, cs⟩
    · exact absurd (by simpa using congrArg List.reverse hr) hne
    · exact ⟨c, cs, rfl⟩
  have hc : c ≠ '\n' := by
    intro hcontra
    apply hnl
    rw [← List.mem_reverse, hrev]
    exact hcontra ▸ List.mem_cons_self c cs
  have hc' : ('\n' = c) = False := by
    simp [eq_comm, hc]
  simp [endsWithStr, List.reverse_append, hrev, startsWithStr, hc']

/-- A text ending in a non-empty newline-free segment followed by a single
newline does not end with `"\n\n"`. -/
lemma endsWithStr_single (B T : List Char) (hne : T ≠ []) (hnl : '\n' ∉ T) :
    endsWithStr (B ++ (T ++ ['\n'])) ['\n', '\n'] = false := by
  obtain ⟨c, cs, hrev⟩ : ∃ c cs, T.reverse = c :: cs := by
    rcases hr : T.reverse with _ | ⟨c, cs⟩
    · exact absurd (by simpa using congrArg List.reverse hr) hne
    · exact ⟨c, cs, rfl⟩
  have hc : c ≠ '\n' := by
    intro hcontra
    apply hnl
    rw [← List.mem_reverse, hrev]
    exact hcontra ▸ List.mem_cons_self c cs
  have hc' : ('\n' = c) = False := by
    simp [eq_comm, hc]
  simp [endsWithStr, List.reverse_append, hrev, startsWithStr, hc']

/-- Splitting at newlines peels off a leading newline-free segment. -/
lemma splitNL_append :
    ∀ (a b : List Char), '\n' ∉ a → splitNL (a ++ '\n' :: b) = a :: splitNL b := by
  intro a
  induction a with
  | nil =>
    intro b _
    simp [splitNL]
  | cons c a' ih =>
    intro b ha
    have hc : ¬ (c = '\n') := fun hcontra => ha (hcontra ▸ List.mem_cons_self c a')
    have ha' : '\n' ∉ a' := fun hcontra => ha (List.mem_cons_of_mem c hcontra)
    simp only [List.cons_append, splitNL, if_neg hc, List.append_eq]
    rw [ih b ha']

/-- C4 counterexample: a call that creates the file writes
`"2024-06-15\n20:30\n"`, which does not end with a blank line (it does not
end with two consecutive newlines), contradicting "the resulting file text
ends with exactly one blank line in all cases". -/
theorem write_timestamp_create_cex :
    write_timestamp none
        ['2', '0', '2', '4', '-', '0', '6', '-', '1', '5'] ['2', '0', ':', '3', '0'] =
      ['2', '0', '2', '4', '-', '0', '6', '-', '1', '5', '\n',
       '2', '0', ':', '3', '0', '\n'] ∧
    endsWithStr
      (write_timestamp none
        ['2', '0', '2', '4', '-', '0', '6', '-', '1', '5'] ['2', '0', ':', '3', '0'])
      ['\n', '\n'] = false :=
  ⟨rfl, rfl⟩

/-- C4 amended: a `write_timestamp` call on an **existing** file always
leaves text that ends with exactly one blank line (it ends with `"\n\n"` but
not `"\n\n\n"`, the time line being non-empty and newline-free); a call that
**creates** the file instead writes just the newline-terminated date and
time lines, with no trailing blank line. -/
theorem write_timestamp_trailing_blank (entry_text this_date this_time : List Char)
    (hne : this_time ≠ []) (hnl : '\n' ∉ this_time) :
    endsWithStr (write_timestamp (some entry_text) this_date this_time)
      ['\n', '\n'] = true ∧
    endsWithStr (write_timestamp (some entry_text) this_date this_time)
      ['\n', '\n', '\n'] = false ∧
    write_timestamp none this_date this_time =
      this_date ++ '\n' :: (this_time ++ ['\n']) ∧
    endsWithStr (write_timestamp none this_date this_time) ['\n', '\n'] = false := by
  refine ⟨?_, ?_, rfl, ?_⟩
  · simp only [write_timestamp]
    exact endsWithStr_pair _ _
  · simp only [write_timestamp]
    exact endsWithStr_triple _ _ hne hnl
  · simp only [write_timestamp]
    have : this_date ++ '\n' :: (this_time ++ ['\n']) =
        (this_date ++ ['\n']) ++ (this_time ++ ['\n']) := by
      simp
    rw [this]
    exact endsWithStr_single _ _ hne hnl

/-- Witness for the amended C4 on concrete inputs: appending to an existing
file `"x"` ends with exactly one blank line; creating a fresh file does not
end with a blank line. -/
theorem write_timestamp_trailing_blank_witness :
    endsWithStr (write_timestamp (some ['x'])
        ['2', '0', '2', '4', '-', '0', '6', '-', '1', '5'] ['2', '0', ':', '3', '0'])
      ['\n', '\n'] = true ∧
    endsWithStr (write_timestamp (some ['x'])
        ['2', '0', '2', '4', '-', '0', '6', '-', '1', '5'] ['2', '0', ':', '3', '0'])
      ['\n', '\n', '\n'] = false ∧
    write_timestamp none
        ['2', '0', '2', '4', '-', '0', '6', '-', '1', '5'] ['2', '0', ':', '3', '0'] =
      ['2', '0', '2', '4', '-', '0', '6', '-', '1', '5'] ++ '\n' ::
        (['2', '0', ':', '3', '0'] ++ ['\n']) ∧
    endsWithStr (write_timestamp none
        ['2', '0', '2', '4', '-', '0', '6', '-', '1', '5'] ['2', '0', ':', '3', '0'])
      ['\n', '\n'] = false :=
  write_timestamp_trailing_blank ['x']
    ['2', '0', '2', '4', '-', '0', '6', '-', '1', '5'] ['2', '0', ':', '3', '0']
    (by decide) (by decide)

/-- C8. Creating a fresh file writes exactly the two newline-terminated
lines date-then-time; a second call on the same calendar date appends a
separating blank line and a second time line but no second date header: the
resulting text is exactly `D\nT1\n\nT2\n\n`, whose newline-split segments
contain exactly one date line and exactly two time lines. -/
theorem write_timestamp_roundtrip (D T1 T2 : List Char)
    (hD : D ≠ []) (hT1 : T1 ≠ []) (hT2 : T2 ≠ [])
    (hnD : '\n' ∉ D) (hn1 : '\n' ∉ T1) (hn2 : '\n' ∉ T2)
    (hDT1 : D ≠ T1) (hDT2 : D ≠ T2) :
    write_timestamp none D T1 = D ++ '\n' :: (T1 ++ ['\n']) ∧
    write_timestamp (some (write_timestamp none D T1)) D T2 =
      D ++ '\n' :: (T1 ++ '\n' :: '\n' :: (T2 ++ ['\n', '\n'])) ∧
    List.countP (fun l => decide (l = D))
      (splitNL (write_timestamp (some (write_timestamp none D T1)) D T2)) = 1 ∧
    List.countP (fun l => decide (l = T1) || decide (l = T2))
      (splitNL (write_timestamp (some (write_timestamp none D T1)) D T2)) = 2 := by
  have hc1 : write_timestamp none D T1 = D ++ '\n' :: (T1 ++ ['\n']) := rfl
  have hcontains : containsStr (D ++ '\n' :: (T1 ++ ['\n'])) D = true :=
    containsStr_append_self D ('\n' :: (T1 ++ ['\n']))
  have hendsfalse : endsWithStr (D ++ '\n' :: (T1 ++ ['\n'])) ['\n', '\n'] = false := by
    have : D ++ '\n' :: (T1 ++ ['\n']) = (D ++ ['\n']) ++ (T1 ++ ['\n']) := by simp
    rw [this]
    exact endsWithStr_single _ _ hT1 hn1
  have hc2 : write_timestamp (some (write_timestamp none D T1)) D T2 =
      D ++ '\n' :: (T1 ++ '\n' :: '\n' :: (T2 ++ ['\n', '\n'])) := by
    rw [hc1]
    simp only [write_timestamp, hcontains, hendsfalse, Bool.not_true, Bool.not_false,
      if_neg, if_pos, Bool.false_eq_true, ite_true, ite_false]
    simp
  have hsplit : splitNL (write_timestamp (some (write_timestamp none D T1)) D T2) =
      [D, T1, [], T2, [], []] := by
    rw [hc2]
    rw [splitNL_append D _ hnD]
    rw [splitNL_append T1 _ hn1]
    have h3 : ('\n' :: (T2 ++ ['\n', '\n'])) = ([] ++ '\n' :: (T2 ++ ['\n', '\n'])) := rfl
    rw [h3, splitNL_append [] _ (by simp)]
    have h4 : T2 ++ ['\n', '\n'] = T2 ++ '\n' :: ['\n'] := rfl
    rw [h4, splitNL_append T2 _ hn2]
    have h5 : (['\n'] : List Char) = [] ++ '\n' :: [] := rfl
    rw [h5, splitNL_append [] _ (by simp)]
    rfl
  have hDT1' : (T1 = D) = False := eq_false (fun h => hDT1 h.symm)
  have hDT2' : (T2 = D) = False := eq_false (fun h => hDT2 h.symm)
  have hDe : (([] : List Char) = D) = False := eq_false (fun h => hD h.symm)
  have hT1e : (([] : List Char) = T1) = False := eq_false (fun h => hT1 h.symm)
  have hT2e : (([] : List Char) = T2) = False := eq_false (fun h => hT2 h.symm)
  have hDT1'' : (D = T1) = False := eq_false hDT1
  have hDT2'' : (D = T2) = False := eq_false hDT2
  refine ⟨hc1, hc2, ?_, ?_⟩
  · rw [hsplit]
    simp [List.countP_cons, hDT1', hDT2', hDe]
  · rw [hsplit]
    simp [List.countP_cons, hDT1'', hDT2'', hT1e, hT2e]

/-- Witness for C8 at concrete inputs: date `2024-06-15`, first time
`09:00`, second time `20:30`. -/
theorem write_timestamp_roundtrip_witness :
    write_timestamp none
        ['2', '0', '2', '4', '-', '0', '6', '-', '1', '5'] ['0', '9', ':', '0', '0'] =
      ['2', '0', '2', '4', '-', '0', '6', '-', '1', '5'] ++ '\n' ::
        (['0', '9', ':', '0', '0'] ++ ['\n']) ∧
    write_timestamp
        (some (write_timestamp none
          ['2', '0', '2', '4', '-', '0', '6', '-', '1', '5'] ['0', '9', ':', '0', '0']))
        ['2', '0', '2', '4', '-', '0', '6', '-', '1', '5'] ['2', '0', ':', '3', '0'] =
      ['2', '0', '2', '4', '-', '0', '6', '-', '1', '5'] ++ '\n' ::
        (['0', '9', ':', '0', '0'] ++ '\n' :: '\n' ::
          (['2', '0', ':', '3', '0'] ++ ['\n', '\n'])) ∧
    List.countP (fun l => decide (l = ['2', '0', '2', '4', '-', '0', '6', '-', '1', '5']))
      (splitNL (write_timestamp
        (some (write_timestamp none
          ['2', '0', '2', '4', '-', '0', '6', '-', '1', '5'] ['0', '9', ':', '0', '0']))
        ['2', '0', '2', '4', '-', '0', '6', '-', '1', '5'] ['2', '0', ':', '3', '0'])) = 1 ∧
    List.countP (fun l => decide (l = ['0', '9', ':', '0', '0']) ||
        decide (l = ['2', '0', ':', '3', '0']))
      (splitNL (write_timestamp
        (some (write_timestamp none
          ['2', '0', '2', '4', '-', '0', '6', '-', '1', '5'] ['0', '9', ':', '0', '0']))
        ['2', '0', '2', '4', '-', '0', '6', '-', '1', '5'] ['2', '0', ':', '3', '0'])) = 2 :=
  write_timestamp_roundtrip
    ['2', '0', '2', '4', '-', '0', '6', '-', '1', '5']
    ['0', '9', ':', '0', '0'] ['2', '0', ':', '3', '0']
    (by decide) (by decide) (by decide) (by decide) (by decide) (by decide)
    (by decide) (by decide)

end Jrnl
